import Mathlib

/-!
Verification of the ABRSQOL quality-of-life inversion solver
(`ABRSQOL/invert_quality_of_life.py`) against its specification.

The solver is embedded shallowly: numpy J×Θ arrays become total functions
`ℕ → ℕ → ℝ` with the row count J and column count Θ passed explicitly
(sums and the output only ever touch indices below J and Θ), floating
point becomes exact real arithmetic, `x ** y` becomes `Real.rpow`, and
the raised `ValueError` becomes `Except.error ()`.
-/

open scoped BigOperators

namespace ABRSQOL

/-- The scalar model parameters and iteration controls of
`invert_quality_of_life` (source lines 15–21). -/
structure Params where
  alpha : ℝ
  beta : ℝ
  gamma : ℝ
  xi : ℝ
  conv : ℝ
  tolerance : ℝ
  maxiter : ℕ

/-- A J×Θ numpy array, as a total function on indices; the row count J and
column count Θ are carried separately. -/
abbrev Mat : Type := ℕ → ℕ → ℝ

/-- A J×1 numpy column, as a total function on the row index. -/
abbrev Col : Type := ℕ → ℝ

/-- The extracted variables of source lines 80–86, each with the shape the
extraction gave it: `L_b`, `L`, `w` are J×Θ matrices with their own row and
column counts, `P_t`, `p_H`, `p_n` are columns with their own row counts
(their column count is 1 by construction, `df[[name]]`). -/
structure RawInput where
  rows_L_b : ℕ
  cols_L_b : ℕ
  mat_L_b : Mat
  rows_L : ℕ
  cols_L : ℕ
  mat_L : Mat
  rows_w : ℕ
  cols_w : ℕ
  mat_w : Mat
  rows_P_t : ℕ
  col_P_t : Col
  rows_p_H : ℕ
  col_p_H : Col
  rows_p_n : ℕ
  col_p_n : Col

/-- `set([len(L_b),len(L),len(w),len(P_t),len(p_H),len(p_n)])` of source
line 90: the set of the six row counts. -/
def rowsSet (inp : RawInput) : Finset ℕ :=
  {inp.rows_L_b, inp.rows_L, inp.rows_w, inp.rows_P_t, inp.rows_p_H, inp.rows_p_n}

/-- `set([L_b.shape[1],L.shape[1],w.shape[1]])` of source line 99: the set of
the three column counts. -/
def colsSet (inp : RawInput) : Finset ℕ :=
  {inp.cols_L_b, inp.cols_L, inp.cols_w}

noncomputable section

/-- `M.sum(axis=0)` for a matrix with J rows: the column sums. -/
def colSum (J : ℕ) (M : Mat) (t : ℕ) : ℝ := ∑ j ∈ Finset.range J, M j t

/-- `L_b_adjust = L_bar / L_b.sum(axis=0)` with `L_bar = L.sum(axis=0)`
(source lines 110–111). -/
def L_b_adjust (J : ℕ) (L L_b : Mat) (t : ℕ) : ℝ :=
  colSum J L t / colSum J L_b t

/-- The rescaled `L_b = L_b * L_b_adjust` (source line 112). -/
def L_b_res (J : ℕ) (L L_b : Mat) : Mat :=
  fun j t => L_b j t * L_b_adjust J L L_b t

/-- `M / M[0]` for a J×Θ matrix: each column divided by its row-0 entry
(source lines 116 and 118, and line 150). -/
def hatM (M : Mat) : Mat := fun j t => M j t / M 0 t

/-- `v / v[0]` for a J×1 column (source lines 120–122). -/
def hatC (v : Col) : Col := fun j => v j / v 0

/-- The aggregate price level of source lines 125–126:
`Pt^(alpha*beta) * pn^(alpha*(1-beta)) * pH^(1-alpha)` (real powers). -/
def aggP (pr : Params) (Pt pn pH : Col) : Col :=
  fun j =>
    Pt j ^ (pr.alpha * pr.beta) * pn j ^ (pr.alpha * (1 - pr.beta)) *
      pH j ^ (1 - pr.alpha)

/-- `nom = (A * w / P) ** gamma` (source line 143). -/
def nom (pr : Params) (w : Mat) (P : Col) (A : Mat) : Mat :=
  fun j t => (A j t * w j t / P j) ^ pr.gamma

/-- `Psi_b = ((exp(xi) - 1) * nom / nom.sum(axis=0) + 1) ** -1`
(source line 144). -/
def Psi_b (pr : Params) (J : ℕ) (w : Mat) (P : Col) (A : Mat) : Mat :=
  fun j t =>
    ((Real.exp pr.xi - 1) * nom pr w P A j t / colSum J (nom pr w P A) t + 1)⁻¹

/-- `mathcal_L = (L_b * Psi_b).sum(axis=0) + L_b * Psi_b * (exp(xi) - 1)`
(source line 147); the row vector of column sums broadcasts over rows. -/
def mathcal_L (pr : Params) (J : ℕ) (Lb Psi : Mat) : Mat :=
  fun j t =>
    colSum J (fun i s => Lb i s * Psi i s) t + Lb j t * Psi j t * (Real.exp pr.xi - 1)

/-- `A_hat_up = P_hat * (1 / w_hat) * (L_hat / mathcal_L_hat) ** (1/gamma)`
(source line 153). -/
def A_hat_up (pr : Params) (P_hat : Col) (w_hat L_hat mLh : Mat) : Mat :=
  fun j t =>
    P_hat j * (1 / w_hat j t) * (L_hat j t / mLh j t) ^ (1 / pr.gamma)

/-- One body of the while loop up to `A_hat_up` (source lines 142–153):
from the current iterate `A` compute `nom`, `Psi_b`, `mathcal_L`,
`mathcal_L_hat = mathcal_L / mathcal_L[0]` and finally `A_hat_up`. -/
def step (pr : Params) (J : ℕ) (w : Mat) (P P_hat : Col)
    (w_hat L_hat Lb : Mat) (A : Mat) : Mat :=
  A_hat_up pr P_hat w_hat L_hat (hatM (mathcal_L pr J Lb (Psi_b pr J w P A)))

/-- `O_total = abs(A_hat_up - A_hat).sum() / J` (source line 157): the sum of
all J·Θ absolute deviations, divided by J. -/
def O_total (J Th : ℕ) (A_up A : Mat) : ℝ :=
  (∑ j ∈ Finset.range J, ∑ t ∈ Finset.range Th, |A_up j t - A j t|) / J

/-- The damped update `A_hat = conv * A_hat_up + (1-conv) * A_hat`
(source line 161). -/
def damp (pr : Params) (A A_up : Mat) : Mat :=
  fun j t => pr.conv * A_up j t + (1 - pr.conv) * A j t

/-- The while loop of source lines 138–165. The fuel argument is the number
of passes the counter still admits (`maxiter` initially, since `count` runs
from 1 while `count <= maxiter`); the real argument is the objective from the
previous pass (100000 initially); returns the final iterate together with the
number of passes actually executed. -/
def solveLoop (pr : Params) (J Th : ℕ) (w : Mat) (P P_hat : Col)
    (w_hat L_hat Lb : Mat) : ℕ → ℝ → Mat → Mat × ℕ
  | 0, _, A => (A, 0)
  | n + 1, O, A =>
      if O ≤ pr.tolerance then (A, 0)
      else
        let A_up := step pr J w P P_hat w_hat L_hat Lb A
        let r := solveLoop pr J Th w P P_hat w_hat L_hat Lb n
          (O_total J Th A_up A) (damp pr A A_up)
        (r.1, r.2 + 1)

/-- The inversion after extraction and dimension checks (source lines
107–165): rescale `L_b`, form the relative variables and price levels, and
run the loop from the all-ones guess. Returns the final `A` and the number
of loop passes executed. -/
def invert_core (pr : Params) (J Th : ℕ) (w L L_b : Mat)
    (P_t p_H p_n : Col) : Mat × ℕ :=
  solveLoop pr J Th w
    (aggP pr P_t p_n p_H)
    (aggP pr (hatC P_t) (hatC p_n) (hatC p_H))
    (hatM w) (hatM L) (L_b_res J L L_b)
    pr.maxiter 100000 (fun _ _ => 1)

/-- The returned vector `A[:,0]` (source line 169): column 0 of the final
iterate. -/
def invert_result (pr : Params) (J Th : ℕ) (w L L_b : Mat)
    (P_t p_H p_n : Col) : ℕ → ℝ :=
  fun j => (invert_core pr J Th w L L_b P_t p_H p_n).1 j 0

/-- `invert_quality_of_life` (source lines 78–169): the two dimension checks
of lines 90 and 99 (`Except.error ()` standing for the raised `ValueError`),
then the solve with `J = len(L_b)` and `Theta = L_b.shape[1]`, returning
`A[:,0]` as a length-J list. -/
def invert_quality_of_life (inp : RawInput) (pr : Params) :
    Except Unit (List ℝ) :=
  if (rowsSet inp).card ≠ 1 then .error ()
  else if (colsSet inp).card ≠ 1 then .error ()
  else
    .ok (List.ofFn (fun j : Fin inp.rows_L_b =>
      invert_result pr inp.rows_L_b inp.cols_L_b inp.mat_w inp.mat_L
        inp.mat_L_b inp.col_P_t inp.col_p_H inp.col_p_n j))

/-! Spec-side definitions, written from the specification text, to be compared
with the definitions transcribed from the source. -/

/-- Spec formula (§4.1 step 1): `nom = (A_hat * w / P)^gamma`. -/
def nom_spec (pr : Params) (w : Mat) (P : Col) (A_hat : Mat) : Mat :=
  fun j t => (A_hat j t * w j t / P j) ^ pr.gamma

/-- Spec formula (§4.1 step 2):
`Psi_b = [(e^xi - 1) * nom / sum_over_J(nom) + 1]^(-1)`. -/
def Psi_b_spec (pr : Params) (J : ℕ) (w : Mat) (P : Col) (A_hat : Mat) : Mat :=
  fun j t =>
    ((Real.exp pr.xi - 1) * nom_spec pr w P A_hat j t /
        (∑ i ∈ Finset.range J, nom_spec pr w P A_hat i t) + 1)⁻¹

/-- Spec formula (§4.1 step 3):
`mathcal_L = sum_over_J(L_b * Psi_b) + L_b * Psi_b * (e^xi - 1)`. -/
def mathcal_L_spec (pr : Params) (J : ℕ) (L_b Psi : Mat) : Mat :=
  fun j t =>
    (∑ i ∈ Finset.range J, L_b i t * Psi i t) +
      L_b j t * Psi j t * (Real.exp pr.xi - 1)

/-- Spec formula (§4.1 step 3): the first-observation-relative form
`mathcal_L_hat`. -/
def mathcal_L_hat_spec (pr : Params) (J : ℕ) (L_b Psi : Mat) : Mat :=
  fun j t => mathcal_L_spec pr J L_b Psi j t / mathcal_L_spec pr J L_b Psi 0 t

/-- Spec formula (§4.1 step 4):
`A_hat_new = P_hat * (1/w_hat) * (L_hat / mathcal_L_hat)^(1/gamma)`. -/
def A_hat_new_spec (pr : Params) (J : ℕ) (w : Mat) (P P_hat : Col)
    (w_hat L_hat L_b : Mat) (A_hat : Mat) : Mat :=
  fun j t =>
    P_hat j * (1 / w_hat j t) *
      (L_hat j t /
        mathcal_L_hat_spec pr J L_b (Psi_b_spec pr J w P A_hat) j t) ^ (1 / pr.gamma)

/-- Spec formula (§4.1 step 5): `O_total = mean_over_J(|A_hat_new - A_hat|)`,
the per-column mean absolute error summed across the Theta columns. -/
def O_total_spec (J Th : ℕ) (A_new A_hat : Mat) : ℝ :=
  (1 / (J : ℝ)) *
    ∑ j ∈ Finset.range J, ∑ t ∈ Finset.range Th, |A_new j t - A_hat j t|

/-- Spec formula (§4.1 step 6): the damped blend
`A_hat := conv * A_hat_new + (1-conv) * A_hat`. -/
def damp_spec (pr : Params) (A_hat A_new : Mat) : Mat :=
  fun j t => pr.conv * A_new j t + (1 - pr.conv) * A_hat j t

/-- Positivity of a J×Θ matrix on the populated index rectangle (the solver
only ever reads indices below J and Θ). -/
def PosOn (J Th : ℕ) (M : Mat) : Prop := ∀ j < J, ∀ t < Th, 0 < M j t

/-- Positivity of a column on its first J entries. -/
def PosCol (J : ℕ) (v : Col) : Prop := ∀ j < J, 0 < v j

/-! Concrete data used to instantiate theorems with hypotheses. -/

/-- The all-ones J×Θ matrix (any shape). -/
def onesM : Mat := fun _ _ => 1

/-- The all-ones column (any length). -/
def onesC : Col := fun _ => 1

/-- A concrete parameter set: the default scalars with `tolerance = 0` and
`maxiter = 1`. -/
def pr0 : Params := ⟨0.7, 0.5, 3, 5.5, 0.5, 0, 1⟩

/-- A concrete well-formed 1×1 input with every variable equal to 1. -/
def inp1 : RawInput :=
  ⟨1, 1, onesM, 1, 1, onesM, 1, 1, onesM, 1, onesC, 1, onesC, 1, onesC⟩

/-- A concrete ill-formed input: `L` has 2 rows while the other five
variables have 1 row. -/
def inpBad : RawInput :=
  ⟨1, 1, onesM, 2, 1, onesM, 1, 1, onesM, 1, onesC, 1, onesC, 1, onesC⟩

end

/-! Dimension-check lemmas. -/

lemma rowsSet_card_one (inp : RawInput) :
    (rowsSet inp).card = 1 ↔
      inp.rows_L = inp.rows_L_b ∧ inp.rows_w = inp.rows_L_b ∧
        inp.rows_P_t = inp.rows_L_b ∧ inp.rows_p_H = inp.rows_L_b ∧
        inp.rows_p_n = inp.rows_L_b := by
  constructor
  · intro h
    obtain ⟨a, ha⟩ := Finset.card_eq_one.mp h
    have hmem : ∀ x ∈ rowsSet inp, x = a := by
      intro x hx; rw [ha] at hx; exact Finset.mem_singleton.mp hx
    have h0 := hmem inp.rows_L_b (by simp [rowsSet])
    have h1 := hmem inp.rows_L (by simp [rowsSet])
    have h2 := hmem inp.rows_w (by simp [rowsSet])
    have h3 := hmem inp.rows_P_t (by simp [rowsSet])
    have h4 := hmem inp.rows_p_H (by simp [rowsSet])
    have h5 := hmem inp.rows_p_n (by simp [rowsSet])
    exact ⟨h1.trans h0.symm, h2.trans h0.symm, h3.trans h0.symm,
      h4.trans h0.symm, h5.trans h0.symm⟩
  · rintro ⟨h1, h2, h3, h4, h5⟩
    rw [rowsSet, h1, h2, h3, h4, h5]
    simp

lemma colsSet_card_one (inp : RawInput) :
    (colsSet inp).card = 1 ↔
      inp.cols_L = inp.cols_L_b ∧ inp.cols_w = inp.cols_L_b := by
  constructor
  · intro h
    obtain ⟨a, ha⟩ := Finset.card_eq_one.mp h
    have hmem : ∀ x ∈ colsSet inp, x = a := by
      intro x hx; rw [ha] at hx; exact Finset.mem_singleton.mp hx
    have h0 := hmem inp.cols_L_b (by simp [colsSet])
    have h1 := hmem inp.cols_L (by simp [colsSet])
    have h2 := hmem inp.cols_w (by simp [colsSet])
    exact ⟨h1.trans h0.symm, h2.trans h0.symm⟩
  · rintro ⟨h1, h2⟩
    rw [colsSet, h1, h2]
    simp

/-- C2: the solver returns the dimension-mismatch error if and only if the
six extracted vectors do not all share one row count or the three per-Theta
vectors `L_b`, `L`, `w` do not all share one column count; when it does, no
preprocessing or iteration is reached (the checks precede the solve in
`invert_quality_of_life`). -/
theorem claim2_dimension_error_iff (inp : RawInput) (pr : Params) :
    invert_quality_of_life inp pr = Except.error () ↔
      (¬ (inp.rows_L = inp.rows_L_b ∧ inp.rows_w = inp.rows_L_b ∧
            inp.rows_P_t = inp.rows_L_b ∧ inp.rows_p_H = inp.rows_L_b ∧
            inp.rows_p_n = inp.rows_L_b) ∨
        ¬ (inp.cols_L = inp.cols_L_b ∧ inp.cols_w = inp.cols_L_b)) := by
  unfold invert_quality_of_life
  by_cases h1 : (rowsSet inp).card = 1
  · by_cases h2 : (colsSet inp).card = 1
    · rw [if_neg (by simp [h1]), if_neg (by simp [h2])]
      have hA := (rowsSet_card_one inp).mp h1
      have hB := (colsSet_card_one inp).mp h2
      simp [hA, hB]
    · rw [if_neg (by simp [h1]), if_pos h2]
      have hB : ¬ (inp.cols_L = inp.cols_L_b ∧ inp.cols_w = inp.cols_L_b) :=
        fun hAB => h2 ((colsSet_card_one inp).mpr hAB)
      simp [hB]
  · rw [if_pos h1]
    have hA : ¬ (inp.rows_L = inp.rows_L_b ∧ inp.rows_w = inp.rows_L_b ∧
        inp.rows_P_t = inp.rows_L_b ∧ inp.rows_p_H = inp.rows_L_b ∧
        inp.rows_p_n = inp.rows_L_b) :=
      fun hAB => h1 ((rowsSet_card_one inp).mpr hAB)
    simp [hA]

/-- C5: each pass of the loop computes exactly the update the specification
states: from the current iterate, `nom`, `Psi_b`, `mathcal_L`,
`mathcal_L_hat` and `A_hat_new` as in §4.1 steps 1–4 (the equation holds
definitionally between the source transcription `step` and the composition
of the spec formulas). -/
theorem claim5_step_matches_spec (pr : Params) (J : ℕ) (w : Mat)
    (P P_hat : Col) (w_hat L_hat Lb A : Mat) :
    step pr J w P P_hat w_hat L_hat Lb A =
      A_hat_new_spec pr J w P P_hat w_hat L_hat Lb A := rfl

/-- C6: the convergence metric is `O_total = (1/J) * Σ_j Σ_t |A_hat_new −
A_hat|`, the next iterate is `conv * A_hat_new + (1-conv) * A_hat`, and in
each executed pass the metric is computed from the pre-damping iterate: the
loop recurses with objective `O_total (step A) A` and state `damp A (step
A)`. -/
theorem claim6_metric_and_damping (pr : Params) (J Th : ℕ) (w : Mat)
    (P P_hat : Col) (w_hat L_hat Lb : Mat) (n : ℕ) (O : ℝ) (A : Mat)
    (h : pr.tolerance < O) :
    (∀ A_new A_hat : Mat, O_total J Th A_new A_hat = O_total_spec J Th A_new A_hat) ∧
    (∀ A_hat A_new : Mat, damp pr A_hat A_new = damp_spec pr A_hat A_new) ∧
    solveLoop pr J Th w P P_hat w_hat L_hat Lb (n + 1) O A =
      ((solveLoop pr J Th w P P_hat w_hat L_hat Lb n
          (O_total J Th (step pr J w P P_hat w_hat L_hat Lb A) A)
          (damp_spec pr A (step pr J w P P_hat w_hat L_hat Lb A))).1,
        (solveLoop pr J Th w P P_hat w_hat L_hat Lb n
          (O_total J Th (step pr J w P P_hat w_hat L_hat Lb A) A)
          (damp_spec pr A (step pr J w P P_hat w_hat L_hat Lb A))).2 + 1) := by
  refine ⟨?_, fun _ _ => rfl, ?_⟩
  · intro A_new A_hat
    rw [O_total, O_total_spec, one_div_mul_eq_div]
  · simp only [solveLoop]
    rw [if_neg (not_le.mpr h)]
    rfl

/-- Witness for C6 at a concrete pass: tolerance 0, objective 100000. -/
theorem claim6_witness :
    (pr0.tolerance < 100000) ∧
      ((∀ A_new A_hat : Mat,
          O_total 1 1 A_new A_hat = O_total_spec 1 1 A_new A_hat) ∧
        (∀ A_hat A_new : Mat, damp pr0 A_hat A_new = damp_spec pr0 A_hat A_new) ∧
        solveLoop pr0 1 1 onesM onesC onesC onesM onesM onesM 1 100000 onesM =
          ((solveLoop pr0 1 1 onesM onesC onesC onesM onesM onesM 0
              (O_total 1 1 (step pr0 1 onesM onesC onesC onesM onesM onesM onesM) onesM)
              (damp_spec pr0 onesM (step pr0 1 onesM onesC onesC onesM onesM onesM onesM))).1,
            (solveLoop pr0 1 1 onesM onesC onesC onesM onesM onesM 0
              (O_total 1 1 (step pr0 1 onesM onesC onesC onesM onesM onesM onesM) onesM)
              (damp_spec pr0 onesM (step pr0 1 onesM onesC onesC onesM onesM onesM onesM))).2 + 1)) := by
  have h : pr0.tolerance < 100000 := by norm_num [pr0]
  exact ⟨h, claim6_metric_and_damping pr0 1 1 onesM onesC onesC onesM onesM
    onesM 0 100000 onesM h⟩

/-- C7: the preprocessing rescales `L_b` by the columnwise factor
`Σ_j L / Σ_j L_b`, after which each column sum of the rescaled `L_b` equals
the corresponding column sum of `L` (in exact arithmetic, provided the
column sum of `L_b` is nonzero). -/
theorem claim7_rescaled_column_sums (J : ℕ) (L L_b : Mat) (t : ℕ)
    (h : colSum J L_b t ≠ 0) :
    colSum J (L_b_res J L L_b) t = colSum J L t := by
  have hsum : colSum J (L_b_res J L L_b) t =
      colSum J L_b t * (colSum J L t / colSum J L_b t) := by
    unfold colSum L_b_res L_b_adjust
    rw [← Finset.sum_mul]
    rfl
  rw [hsum, mul_div_assoc']
  exact mul_div_cancel_left₀ _ h

/-- Witness for C7 at the all-ones 1-row input. -/
theorem claim7_witness :
    colSum 1 onesM 0 ≠ 0 ∧
      colSum 1 (L_b_res 1 onesM onesM) 0 = colSum 1 onesM 0 := by
  have h : colSum 1 onesM 0 ≠ 0 := by
    simp [colSum, onesM]
  exact ⟨h, claim7_rescaled_column_sums 1 onesM onesM 0 h⟩

/-! Positivity lemmas: with strictly positive inputs every intermediate
quantity of a pass stays strictly positive on the populated rectangle,
and the row-0 value of every pass equals 1. -/

lemma colSum_pos (J : ℕ) (M : Mat) (t : ℕ) (hJ : 0 < J)
    (h : ∀ j < J, 0 < M j t) : 0 < colSum J M t :=
  Finset.sum_pos (fun j hj => h j (Finset.mem_range.mp hj))
    ⟨0, Finset.mem_range.mpr hJ⟩

lemma colSum_single_le (J : ℕ) (M : Mat) (t j : ℕ) (hj : j < J)
    (h : ∀ i < J, 0 < M i t) : M j t ≤ colSum J M t :=
  Finset.single_le_sum (f := fun i => M i t)
    (fun i hi => le_of_lt (h i (Finset.mem_range.mp hi)))
    (Finset.mem_range.mpr hj)

lemma aggP_pos (pr : Params) (J : ℕ) (Pt pn pH : Col)
    (h1 : PosCol J Pt) (h2 : PosCol J pn) (h3 : PosCol J pH) :
    PosCol J (aggP pr Pt pn pH) := fun j hj =>
  mul_pos
    (mul_pos (Real.rpow_pos_of_pos (h1 j hj) _)
      (Real.rpow_pos_of_pos (h2 j hj) _))
    (Real.rpow_pos_of_pos (h3 j hj) _)

lemma hatC_pos (J : ℕ) (v : Col) (hJ : 0 < J) (h : PosCol J v) :
    PosCol J (hatC v) := fun j hj => div_pos (h j hj) (h 0 hJ)

lemma hatM_pos (J Th : ℕ) (M : Mat) (hJ : 0 < J) (h : PosOn J Th M) :
    PosOn J Th (hatM M) := fun j hj t ht =>
  div_pos (h j hj t ht) (h 0 hJ t ht)

lemma nom_pos (pr : Params) (J Th : ℕ) (w : Mat) (P : Col) (A : Mat)
    (hw : PosOn J Th w) (hP : PosCol J P) (hA : PosOn J Th A) :
    PosOn J Th (nom pr w P A) := fun j hj t ht =>
  Real.rpow_pos_of_pos
    (div_pos (mul_pos (hA j hj t ht) (hw j hj t ht)) (hP j hj)) _

lemma Psi_b_pos (pr : Params) (J Th : ℕ) (w : Mat) (P : Col) (A : Mat)
    (hJ : 0 < J) (hw : PosOn J Th w) (hP : PosCol J P) (hA : PosOn J Th A) :
    PosOn J Th (Psi_b pr J w P A) := by
  intro j hj t ht
  have hnom := nom_pos pr J Th w P A hw hP hA
  have hn : 0 < nom pr w P A j t := hnom j hj t ht
  have hs : 0 < colSum J (nom pr w P A) t :=
    colSum_pos J _ t hJ (fun i hi => hnom i hi t ht)
  have hq : 0 < nom pr w P A j t / colSum J (nom pr w P A) t := div_pos hn hs
  have hq1 : nom pr w P A j t / colSum J (nom pr w P A) t ≤ 1 :=
    (div_le_one hs).mpr (colSum_single_le J _ t j hj (fun i hi => hnom i hi t ht))
  have hexp : (-1 : ℝ) < Real.exp pr.xi - 1 := by
    have := Real.exp_pos pr.xi; linarith
  have hkey : 0 <
      (Real.exp pr.xi - 1) * nom pr w P A j t / colSum J (nom pr w P A) t + 1 := by
    rw [mul_div_assoc]
    have hmul := mul_lt_mul_of_pos_right hexp hq
    linarith
  exact inv_pos.mpr hkey

lemma mathcal_L_pos (pr : Params) (J Th : ℕ) (Lb Psi : Mat)
    (hJ : 0 < J) (hLb : PosOn J Th Lb) (hPsi : PosOn J Th Psi) :
    PosOn J Th (mathcal_L pr J Lb Psi) := by
  intro j hj t ht
  have hterm : ∀ i < J, 0 < Lb i t * Psi i t := fun i hi =>
    mul_pos (hLb i hi t ht) (hPsi i hi t ht)
  have hS : 0 < colSum J (fun i s => Lb i s * Psi i s) t :=
    colSum_pos J _ t hJ hterm
  have hle : Lb j t * Psi j t ≤ colSum J (fun i s => Lb i s * Psi i s) t :=
    colSum_single_le J (fun i s => Lb i s * Psi i s) t j hj hterm
  have hexp : (-1 : ℝ) < Real.exp pr.xi - 1 := by
    have := Real.exp_pos pr.xi; linarith
  have hmul := mul_lt_mul_of_pos_left hexp (hterm j hj)
  show 0 < colSum J (fun i s => Lb i s * Psi i s) t +
    Lb j t * Psi j t * (Real.exp pr.xi - 1)
  linarith

lemma step_pos (pr : Params) (J Th : ℕ) (w : Mat) (P P_hat : Col)
    (w_hat L_hat Lb : Mat) (A : Mat)
    (hJ : 0 < J) (hw : PosOn J Th w) (hP : PosCol J P) (hPhat : PosCol J P_hat)
    (hwhat : PosOn J Th w_hat) (hLhat : PosOn J Th L_hat) (hLb : PosOn J Th Lb)
    (hA : PosOn J Th A) :
    PosOn J Th (step pr J w P P_hat w_hat L_hat Lb A) := by
  intro j hj t ht
  have hPsi := Psi_b_pos pr J Th w P A hJ hw hP hA
  have hmL := mathcal_L_pos pr J Th Lb (Psi_b pr J w P A) hJ hLb hPsi
  have hmLh : 0 < hatM (mathcal_L pr J Lb (Psi_b pr J w P A)) j t :=
    div_pos (hmL j hj t ht) (hmL 0 hJ t ht)
  show 0 < P_hat j * (1 / w_hat j t) *
    (L_hat j t / hatM (mathcal_L pr J Lb (Psi_b pr J w P A)) j t) ^ (1 / pr.gamma)
  exact mul_pos
    (mul_pos (hPhat j hj) (one_div_pos.mpr (hwhat j hj t ht)))
    (Real.rpow_pos_of_pos (div_pos (hLhat j hj t ht) hmLh) _)

lemma step_row0 (pr : Params) (J Th : ℕ) (w : Mat) (P P_hat : Col)
    (w_hat L_hat Lb : Mat) (A : Mat) (t : ℕ)
    (hJ : 0 < J) (ht : t < Th)
    (hw : PosOn J Th w) (hP : PosCol J P)
    (hPhat0 : P_hat 0 = 1) (hwhat0 : w_hat 0 t = 1) (hLhat0 : L_hat 0 t = 1)
    (hLb : PosOn J Th Lb) (hA : PosOn J Th A) :
    step pr J w P P_hat w_hat L_hat Lb A 0 t = 1 := by
  have hPsi := Psi_b_pos pr J Th w P A hJ hw hP hA
  have hmL := mathcal_L_pos pr J Th Lb (Psi_b pr J w P A) hJ hLb hPsi
  have hmLh0 : hatM (mathcal_L pr J Lb (Psi_b pr J w P A)) 0 t = 1 :=
    div_self (ne_of_gt (hmL 0 hJ t ht))
  show P_hat 0 * (1 / w_hat 0 t) *
    (L_hat 0 t / hatM (mathcal_L pr J Lb (Psi_b pr J w P A)) 0 t) ^ (1 / pr.gamma) = 1
  rw [hPhat0, hwhat0, hLhat0, hmLh0]
  simp [Real.one_rpow]

lemma damp_pos (pr : Params) (J Th : ℕ) (A B : Mat)
    (h0 : 0 ≤ pr.conv) (h1 : pr.conv ≤ 1)
    (hA : PosOn J Th A) (hB : PosOn J Th B) :
    PosOn J Th (damp pr A B) := by
  intro j hj t ht
  show 0 < pr.conv * B j t + (1 - pr.conv) * A j t
  rcases eq_or_lt_of_le h0 with hc | hc
  · rw [← hc]
    simpa using hA j hj t ht
  · have hb := mul_pos hc (hB j hj t ht)
    have ha : 0 ≤ (1 - pr.conv) * A j t :=
      mul_nonneg (by linarith) (le_of_lt (hA j hj t ht))
    linarith

lemma solveLoop_inv (pr : Params) (J Th : ℕ) (w : Mat) (P P_hat : Col)
    (w_hat L_hat Lb : Mat)
    (hJ : 0 < J) (hw : PosOn J Th w) (hP : PosCol J P) (hPhat : PosCol J P_hat)
    (hPhat0 : P_hat 0 = 1)
    (hwhat : PosOn J Th w_hat) (hwhat0 : ∀ t < Th, w_hat 0 t = 1)
    (hLhat : PosOn J Th L_hat) (hLhat0 : ∀ t < Th, L_hat 0 t = 1)
    (hLb : PosOn J Th Lb)
    (hc0 : 0 ≤ pr.conv) (hc1 : pr.conv ≤ 1) :
    ∀ fuel O A, PosOn J Th A → (∀ t < Th, A 0 t = 1) →
      PosOn J Th (solveLoop pr J Th w P P_hat w_hat L_hat Lb fuel O A).1 ∧
        ∀ t < Th, (solveLoop pr J Th w P P_hat w_hat L_hat Lb fuel O A).1 0 t = 1 := by
  intro fuel
  induction fuel with
  | zero =>
    intro O A hA hA0
    exact ⟨hA, hA0⟩
  | succ n ih =>
    intro O A hA hA0
    by_cases hO : O ≤ pr.tolerance
    · simp only [solveLoop, if_pos hO]
      exact ⟨hA, hA0⟩
    · simp only [solveLoop, if_neg hO]
      have hup := step_pos pr J Th w P P_hat w_hat L_hat Lb A hJ hw hP hPhat
        hwhat hLhat hLb hA
      have hup0 : ∀ t < Th, step pr J w P P_hat w_hat L_hat Lb A 0 t = 1 :=
        fun t ht => step_row0 pr J Th w P P_hat w_hat L_hat Lb A t hJ ht hw hP
          hPhat0 (hwhat0 t ht) (hLhat0 t ht) hLb hA
      have hd := damp_pos pr J Th A (step pr J w P P_hat w_hat L_hat Lb A)
        hc0 hc1 hA hup
      have hd0 : ∀ t < Th,
          damp pr A (step pr J w P P_hat w_hat L_hat Lb A) 0 t = 1 := by
        intro t ht
        show pr.conv * step pr J w P P_hat w_hat L_hat Lb A 0 t +
          (1 - pr.conv) * A 0 t = 1
        rw [hup0 t ht, hA0 t ht]
        ring
      exact ih (O_total J Th (step pr J w P P_hat w_hat L_hat Lb A) A)
        (damp pr A (step pr J w P P_hat w_hat L_hat Lb A)) hd hd0

/-! Unfolding lemmas for the loop, and the iteration count bound. -/

lemma solveLoop_succ_lt (pr : Params) (J Th : ℕ) (w : Mat) (P P_hat : Col)
    (w_hat L_hat Lb : Mat) (n : ℕ) (O : ℝ) (A : Mat)
    (h : pr.tolerance < O) :
    solveLoop pr J Th w P P_hat w_hat L_hat Lb (n + 1) O A =
      ((solveLoop pr J Th w P P_hat w_hat L_hat Lb n
          (O_total J Th (step pr J w P P_hat w_hat L_hat Lb A) A)
          (damp pr A (step pr J w P P_hat w_hat L_hat Lb A))).1,
        (solveLoop pr J Th w P P_hat w_hat L_hat Lb n
          (O_total J Th (step pr J w P P_hat w_hat L_hat Lb A) A)
          (damp pr A (step pr J w P P_hat w_hat L_hat Lb A))).2 + 1) := by
  simp only [solveLoop]
  rw [if_neg (not_le.mpr h)]

lemma solveLoop_succ_le (pr : Params) (J Th : ℕ) (w : Mat) (P P_hat : Col)
    (w_hat L_hat Lb : Mat) (n : ℕ) (O : ℝ) (A : Mat)
    (h : O ≤ pr.tolerance) :
    solveLoop pr J Th w P P_hat w_hat L_hat Lb (n + 1) O A = (A, 0) := by
  simp only [solveLoop]
  rw [if_pos h]

lemma solveLoop_count_le (pr : Params) (J Th : ℕ) (w : Mat) (P P_hat : Col)
    (w_hat L_hat Lb : Mat) :
    ∀ fuel O A,
      (solveLoop pr J Th w P P_hat w_hat L_hat Lb fuel O A).2 ≤ fuel := by
  intro fuel
  induction fuel with
  | zero => intro O A; exact le_refl 0
  | succ n ih =>
    intro O A
    by_cases hO : O ≤ pr.tolerance
    · rw [solveLoop_succ_le pr J Th w P P_hat w_hat L_hat Lb n O A hO]
      exact Nat.zero_le _
    · rw [solveLoop_succ_lt pr J Th w P P_hat w_hat L_hat Lb n O A (not_le.mp hO)]
      exact Nat.succ_le_succ (ih _ _)

/-! Positivity and row-0 facts about the fixed data built by `invert_core`
from strictly positive raw inputs. -/

lemma invert_fixed_pos (pr : Params) (J Th : ℕ) (w L L_b : Mat)
    (P_t p_H p_n : Col) (hJ : 0 < J)
    (hw : PosOn J Th w) (hL : PosOn J Th L) (hLb : PosOn J Th L_b)
    (hPt : PosCol J P_t) (hpH : PosCol J p_H) (hpn : PosCol J p_n) :
    PosCol J (aggP pr P_t p_n p_H) ∧
      PosCol J (aggP pr (hatC P_t) (hatC p_n) (hatC p_H)) ∧
      aggP pr (hatC P_t) (hatC p_n) (hatC p_H) 0 = 1 ∧
      PosOn J Th (hatM w) ∧ (∀ t < Th, hatM w 0 t = 1) ∧
      PosOn J Th (hatM L) ∧ (∀ t < Th, hatM L 0 t = 1) ∧
      PosOn J Th (L_b_res J L L_b) := by
  refine ⟨aggP_pos pr J P_t p_n p_H hPt hpn hpH, ?_, ?_, hatM_pos J Th w hJ hw,
    ?_, hatM_pos J Th L hJ hL, ?_, ?_⟩
  · exact aggP_pos pr J (hatC P_t) (hatC p_n) (hatC p_H)
      (hatC_pos J P_t hJ hPt) (hatC_pos J p_n hJ hpn) (hatC_pos J p_H hJ hpH)
  · have e1 : hatC P_t 0 = 1 := div_self (ne_of_gt (hPt 0 hJ))
    have e2 : hatC p_n 0 = 1 := div_self (ne_of_gt (hpn 0 hJ))
    have e3 : hatC p_H 0 = 1 := div_self (ne_of_gt (hpH 0 hJ))
    show hatC P_t 0 ^ (pr.alpha * pr.beta) *
      hatC p_n 0 ^ (pr.alpha * (1 - pr.beta)) * hatC p_H 0 ^ (1 - pr.alpha) = 1
    rw [e1, e2, e3]
    simp [Real.one_rpow]
  · intro t ht
    exact div_self (ne_of_gt (hw 0 hJ t ht))
  · intro t ht
    exact div_self (ne_of_gt (hL 0 hJ t ht))
  · intro j hj t ht
    show 0 < L_b j t * (colSum J L t / colSum J L_b t)
    exact mul_pos (hLb j hj t ht)
      (div_pos (colSum_pos J L t hJ (fun i hi => hL i hi t ht))
        (colSum_pos J L_b t hJ (fun i hi => hLb i hi t ht)))

/-! Congruence lemmas: a pass reads the iterate only on the populated
rectangle, and rescaling `w` by a positive constant leaves a pass
unchanged there. -/

lemma hatM_smul (c : ℝ) (hc : c ≠ 0) (w : Mat) :
    hatM (fun i s => c * w i s) = hatM w := by
  funext j t
  show c * w j t / (c * w 0 t) = w j t / w 0 t
  exact mul_div_mul_left _ _ hc

lemma Psi_b_congrA (pr : Params) (J : ℕ) (w : Mat) (P : Col)
    (A1 A2 : Mat) (t : ℕ) (h : ∀ i < J, A1 i t = A2 i t) :
    ∀ j < J, Psi_b pr J w P A1 j t = Psi_b pr J w P A2 j t := by
  intro j hj
  have hnom : ∀ i < J, nom pr w P A1 i t = nom pr w P A2 i t := by
    intro i hi
    show (A1 i t * w i t / P i) ^ pr.gamma = (A2 i t * w i t / P i) ^ pr.gamma
    rw [h i hi]
  have hsum : colSum J (nom pr w P A1) t = colSum J (nom pr w P A2) t := by
    unfold colSum
    exact Finset.sum_congr rfl (fun i hi => hnom i (Finset.mem_range.mp hi))
  show ((Real.exp pr.xi - 1) * nom pr w P A1 j t /
      colSum J (nom pr w P A1) t + 1)⁻¹ = _
  rw [hnom j hj, hsum]
  rfl

lemma mathcal_L_congr (pr : Params) (J : ℕ) (Lb : Mat) (Psi1 Psi2 : Mat)
    (t : ℕ) (h : ∀ i < J, Psi1 i t = Psi2 i t) :
    ∀ j < J, mathcal_L pr J Lb Psi1 j t = mathcal_L pr J Lb Psi2 j t := by
  intro j hj
  have hs : colSum J (fun i s => Lb i s * Psi1 i s) t =
      colSum J (fun i s => Lb i s * Psi2 i s) t := by
    unfold colSum
    refine Finset.sum_congr rfl (fun i hi => ?_)
    show Lb i t * Psi1 i t = Lb i t * Psi2 i t
    rw [h i (Finset.mem_range.mp hi)]
  show colSum J (fun i s => Lb i s * Psi1 i s) t +
      Lb j t * Psi1 j t * (Real.exp pr.xi - 1) = _
  rw [hs, h j hj]
  rfl

lemma step_congrA (pr : Params) (J : ℕ) (w : Mat) (P P_hat : Col)
    (w_hat L_hat Lb : Mat) (A1 A2 : Mat) (t : ℕ) (hJ : 0 < J)
    (h : ∀ i < J, A1 i t = A2 i t) :
    ∀ j < J, step pr J w P P_hat w_hat L_hat Lb A1 j t =
      step pr J w P P_hat w_hat L_hat Lb A2 j t := by
  intro j hj
  have hPsi := Psi_b_congrA pr J w P A1 A2 t h
  have hmL := mathcal_L_congr pr J Lb (Psi_b pr J w P A1) (Psi_b pr J w P A2) t hPsi
  show P_hat j * (1 / w_hat j t) *
      (L_hat j t /
        (mathcal_L pr J Lb (Psi_b pr J w P A1) j t /
          mathcal_L pr J Lb (Psi_b pr J w P A1) 0 t)) ^ (1 / pr.gamma) = _
  rw [hmL j hj, hmL 0 hJ]
  rfl

lemma Psi_b_smul (pr : Params) (J Th : ℕ) (c : ℝ) (hc : 0 < c)
    (w : Mat) (P : Col) (A : Mat)
    (hw : PosOn J Th w) (hP : PosCol J P) (hA : PosOn J Th A) :
    ∀ j < J, ∀ t < Th,
      Psi_b pr J (fun i s => c * w i s) P A j t = Psi_b pr J w P A j t := by
  intro j hj t ht
  have hnomi : ∀ i < J, nom pr (fun i2 s => c * w i2 s) P A i t =
      c ^ pr.gamma * nom pr w P A i t := by
    intro i hi
    show (A i t * (c * w i t) / P i) ^ pr.gamma =
      c ^ pr.gamma * (A i t * w i t / P i) ^ pr.gamma
    have hb : A i t * (c * w i t) / P i = c * (A i t * w i t / P i) := by ring
    rw [hb]
    exact Real.mul_rpow (le_of_lt hc)
      (le_of_lt (div_pos (mul_pos (hA i hi t ht) (hw i hi t ht)) (hP i hi)))
  have hsum : colSum J (nom pr (fun i2 s => c * w i2 s) P A) t =
      c ^ pr.gamma * colSum J (nom pr w P A) t := by
    unfold colSum
    rw [Finset.mul_sum]
    exact Finset.sum_congr rfl (fun i hi => hnomi i (Finset.mem_range.mp hi))
  have hcg : c ^ pr.gamma ≠ 0 := ne_of_gt (Real.rpow_pos_of_pos hc _)
  show ((Real.exp pr.xi - 1) * nom pr (fun i2 s => c * w i2 s) P A j t /
      colSum J (nom pr (fun i2 s => c * w i2 s) P A) t + 1)⁻¹ = _
  rw [hnomi j hj, hsum]
  have hnum : (Real.exp pr.xi - 1) * (c ^ pr.gamma * nom pr w P A j t) =
      c ^ pr.gamma * ((Real.exp pr.xi - 1) * nom pr w P A j t) := by ring
  rw [hnum, mul_div_mul_left _ _ hcg]
  rfl

lemma step_smul (pr : Params) (J Th : ℕ) (c : ℝ) (hc : 0 < c)
    (w : Mat) (P P_hat : Col) (w_hat L_hat Lb : Mat) (A : Mat)
    (hJ : 0 < J) (hw : PosOn J Th w) (hP : PosCol J P) (hA : PosOn J Th A) :
    ∀ j < J, ∀ t < Th,
      step pr J (fun i s => c * w i s) P P_hat w_hat L_hat Lb A j t =
        step pr J w P P_hat w_hat L_hat Lb A j t := by
  intro j hj t ht
  have hPsi : ∀ i < J,
      Psi_b pr J (fun i2 s => c * w i2 s) P A i t = Psi_b pr J w P A i t :=
    fun i hi => Psi_b_smul pr J Th c hc w P A hw hP hA i hi t ht
  have hmL := mathcal_L_congr pr J Lb
    (Psi_b pr J (fun i2 s => c * w i2 s) P A) (Psi_b pr J w P A) t hPsi
  show P_hat j * (1 / w_hat j t) *
      (L_hat j t /
        (mathcal_L pr J Lb (Psi_b pr J (fun i2 s => c * w i2 s) P A) j t /
          mathcal_L pr J Lb (Psi_b pr J (fun i2 s => c * w i2 s) P A) 0 t)) ^
        (1 / pr.gamma) = _
  rw [hmL j hj, hmL 0 hJ]
  rfl

lemma solveLoop_smul (pr : Params) (J Th : ℕ) (c : ℝ) (hc : 0 < c)
    (w : Mat) (P P_hat : Col) (w_hat L_hat Lb : Mat)
    (hJ : 0 < J) (hw : PosOn J Th w) (hP : PosCol J P) (hPhat : PosCol J P_hat)
    (hwhat : PosOn J Th w_hat) (hLhat : PosOn J Th L_hat) (hLb : PosOn J Th Lb)
    (hc0 : 0 ≤ pr.conv) (hc1 : pr.conv ≤ 1) :
    ∀ fuel O A1 A2, (∀ j < J, ∀ t < Th, A1 j t = A2 j t) → PosOn J Th A2 →
      ∀ j < J, ∀ t < Th,
        (solveLoop pr J Th (fun i s => c * w i s) P P_hat w_hat L_hat Lb
            fuel O A1).1 j t =
          (solveLoop pr J Th w P P_hat w_hat L_hat Lb fuel O A2).1 j t := by
  intro fuel
  induction fuel with
  | zero => intro O A1 A2 heq hA2 j hj t ht; exact heq j hj t ht
  | succ n ih =>
    intro O A1 A2 heq hA2 j hj t ht
    by_cases hO : O ≤ pr.tolerance
    · rw [solveLoop_succ_le pr J Th (fun i s => c * w i s) P P_hat w_hat L_hat
        Lb n O A1 hO, solveLoop_succ_le pr J Th w P P_hat w_hat L_hat Lb n O A2 hO]
      exact heq j hj t ht
    · have hO2 := not_le.mp hO
      have hA1 : PosOn J Th A1 := fun i hi s hs => heq i hi s hs ▸ hA2 i hi s hs
      have hstep_eq : ∀ i < J, ∀ s < Th,
          step pr J (fun i2 s2 => c * w i2 s2) P P_hat w_hat L_hat Lb A1 i s =
            step pr J w P P_hat w_hat L_hat Lb A2 i s := by
        intro i hi s hs
        rw [step_congrA pr J (fun i2 s2 => c * w i2 s2) P P_hat w_hat L_hat Lb
          A1 A2 s hJ (fun i2 hi2 => heq i2 hi2 s hs) i hi]
        exact step_smul pr J Th c hc w P P_hat w_hat L_hat Lb A2 hJ hw hP hA2
          i hi s hs
      have hOeq : O_total J Th
          (step pr J (fun i2 s2 => c * w i2 s2) P P_hat w_hat L_hat Lb A1) A1 =
          O_total J Th (step pr J w P P_hat w_hat L_hat Lb A2) A2 := by
        unfold O_total
        congr 1
        refine Finset.sum_congr rfl (fun i hi => ?_)
        refine Finset.sum_congr rfl (fun s hs => ?_)
        rw [hstep_eq i (Finset.mem_range.mp hi) s (Finset.mem_range.mp hs),
          heq i (Finset.mem_range.mp hi) s (Finset.mem_range.mp hs)]
      have hdamp_eq : ∀ i < J, ∀ s < Th,
          damp pr A1 (step pr J (fun i2 s2 => c * w i2 s2) P P_hat w_hat
            L_hat Lb A1) i s =
            damp pr A2 (step pr J w P P_hat w_hat L_hat Lb A2) i s := by
        intro i hi s hs
        show pr.conv * step pr J (fun i2 s2 => c * w i2 s2) P P_hat w_hat
          L_hat Lb A1 i s + (1 - pr.conv) * A1 i s = _
        rw [hstep_eq i hi s hs, heq i hi s hs]
        rfl
      have hdamp_pos : PosOn J Th
          (damp pr A2 (step pr J w P P_hat w_hat L_hat Lb A2)) :=
        damp_pos pr J Th A2 (step pr J w P P_hat w_hat L_hat Lb A2) hc0 hc1 hA2
          (step_pos pr J Th w P P_hat w_hat L_hat Lb A2 hJ hw hP hPhat hwhat
            hLhat hLb hA2)
      rw [solveLoop_succ_lt pr J Th (fun i s => c * w i s) P P_hat w_hat L_hat
        Lb n O A1 hO2, solveLoop_succ_lt pr J Th w P P_hat w_hat L_hat Lb n O
        A2 hO2]
      rw [hOeq]
      exact ih (O_total J Th (step pr J w P P_hat w_hat L_hat Lb A2) A2)
        (damp pr A1 (step pr J (fun i2 s2 => c * w i2 s2) P P_hat w_hat L_hat
          Lb A1))
        (damp pr A2 (step pr J w P P_hat w_hat L_hat Lb A2)) hdamp_eq
        hdamp_pos j hj t ht

/-! A pass started from the all-ones guess on identical-rows data. -/

lemma step_ones_const (pr : Params) (J Th : ℕ) (w : Mat) (P P_hat : Col)
    (w_hat L_hat Lb : Mat)
    (hJ : 0 < J) (hw : PosOn J Th w) (hP : PosCol J P)
    (hPc : ∀ j < J, P j = P 0)
    (hwc : ∀ j < J, ∀ t < Th, w j t = w 0 t)
    (hPhat1 : ∀ j < J, P_hat j = 1)
    (hwhat1 : ∀ j < J, ∀ t < Th, w_hat j t = 1)
    (hLhat1 : ∀ j < J, ∀ t < Th, L_hat j t = 1)
    (hLb : PosOn J Th Lb)
    (hLbc : ∀ j < J, ∀ t < Th, Lb j t = Lb 0 t) :
    ∀ j < J, ∀ t < Th,
      step pr J w P P_hat w_hat L_hat Lb (fun _ _ => 1) j t = 1 := by
  intro j hj t ht
  have hA : PosOn J Th (fun _ _ => (1 : ℝ)) := fun _ _ _ _ => one_pos
  have hnomc : ∀ i < J, nom pr w P (fun _ _ => 1) i t =
      nom pr w P (fun _ _ => 1) 0 t := by
    intro i hi
    show ((1 : ℝ) * w i t / P i) ^ pr.gamma = ((1 : ℝ) * w 0 t / P 0) ^ pr.gamma
    rw [hwc i hi t ht, hPc i hi]
  have hPsic : ∀ i < J, Psi_b pr J w P (fun _ _ => 1) i t =
      Psi_b pr J w P (fun _ _ => 1) 0 t := by
    intro i hi
    show ((Real.exp pr.xi - 1) * nom pr w P (fun _ _ => 1) i t /
        colSum J (nom pr w P (fun _ _ => 1)) t + 1)⁻¹ = _
    rw [hnomc i hi]
    rfl
  have hmLc : ∀ i < J,
      mathcal_L pr J Lb (Psi_b pr J w P (fun _ _ => 1)) i t =
        mathcal_L pr J Lb (Psi_b pr J w P (fun _ _ => 1)) 0 t := by
    intro i hi
    show colSum J (fun i2 s => Lb i2 s * Psi_b pr J w P (fun _ _ => 1) i2 s) t +
        Lb i t * Psi_b pr J w P (fun _ _ => 1) i t * (Real.exp pr.xi - 1) = _
    rw [hLbc i hi t ht, hPsic i hi]
    rfl
  have hPsi := Psi_b_pos pr J Th w P (fun _ _ => 1) hJ hw hP hA
  have hmL0 : 0 < mathcal_L pr J Lb (Psi_b pr J w P (fun _ _ => 1)) 0 t :=
    mathcal_L_pos pr J Th Lb (Psi_b pr J w P (fun _ _ => 1)) hJ hLb hPsi 0 hJ t ht
  have hmLh : hatM (mathcal_L pr J Lb (Psi_b pr J w P (fun _ _ => 1))) j t = 1 := by
    show mathcal_L pr J Lb (Psi_b pr J w P (fun _ _ => 1)) j t /
      mathcal_L pr J Lb (Psi_b pr J w P (fun _ _ => 1)) 0 t = 1
    rw [hmLc j hj]
    exact div_self (ne_of_gt hmL0)
  show P_hat j * (1 / w_hat j t) *
    (L_hat j t / hatM (mathcal_L pr J Lb (Psi_b pr J w P (fun _ _ => 1))) j t) ^
      (1 / pr.gamma) = 1
  rw [hPhat1 j hj, hwhat1 j hj t ht, hLhat1 j hj t ht, hmLh]
  simp [Real.one_rpow]

/-- C1: with strictly positive inputs and a damping factor in [0,1], the
returned vector's first element equals 1 exactly; more strongly, whenever an
iterate is positive with first row 1 in every column (as the all-ones
initial guess is), the loop's final iterate again has first row 1 in every
column, so no final renormalization is involved. -/
theorem claim1_normalization (pr : Params) (J Th : ℕ) (w L L_b : Mat)
    (P_t p_H p_n : Col)
    (hJ : 0 < J) (hTh : 0 < Th)
    (hw : PosOn J Th w) (hL : PosOn J Th L) (hLb : PosOn J Th L_b)
    (hPt : PosCol J P_t) (hpH : PosCol J p_H) (hpn : PosCol J p_n)
    (hc0 : 0 ≤ pr.conv) (hc1 : pr.conv ≤ 1) :
    invert_result pr J Th w L L_b P_t p_H p_n 0 = 1 ∧
      ∀ fuel O A, PosOn J Th A → (∀ t < Th, A 0 t = 1) →
        ∀ t < Th,
          (solveLoop pr J Th w (aggP pr P_t p_n p_H)
            (aggP pr (hatC P_t) (hatC p_n) (hatC p_H)) (hatM w) (hatM L)
            (L_b_res J L L_b) fuel O A).1 0 t = 1 := by
  obtain ⟨hP, hPhat, hPhat0, hwhat, hwhat0, hLhat, hLhat0, hLbres⟩ :=
    invert_fixed_pos pr J Th w L L_b P_t p_H p_n hJ hw hL hLb hPt hpH hpn
  have hinv := solveLoop_inv pr J Th w (aggP pr P_t p_n p_H)
    (aggP pr (hatC P_t) (hatC p_n) (hatC p_H)) (hatM w) (hatM L)
    (L_b_res J L L_b) hJ hw hP hPhat hPhat0 hwhat hwhat0 hLhat hLhat0 hLbres
    hc0 hc1
  constructor
  · exact (hinv pr.maxiter 100000 (fun _ _ => 1)
      (fun _ _ _ _ => one_pos) (fun _ _ => rfl)).2 0 hTh
  · intro fuel O A hA hA0
    exact (hinv fuel O A hA hA0).2

/-- Witness for C1 at the all-ones 2×1 input. -/
theorem claim1_witness :
    (0 < 2) ∧ (0 : ℝ) ≤ pr0.conv ∧ pr0.conv ≤ 1 ∧
      invert_result pr0 2 1 onesM onesM onesM onesC onesC onesC 0 = 1 := by
  have hc0 : (0 : ℝ) ≤ pr0.conv := by norm_num [pr0]
  have hc1 : pr0.conv ≤ 1 := by norm_num [pr0]
  refine ⟨by norm_num, hc0, hc1, ?_⟩
  exact (claim1_normalization pr0 2 1 onesM onesM onesM onesC onesC onesC
    (by norm_num) (by norm_num)
    (fun _ _ _ _ => one_pos) (fun _ _ _ _ => one_pos) (fun _ _ _ _ => one_pos)
    (fun _ _ => one_pos) (fun _ _ => one_pos) (fun _ _ => one_pos)
    hc0 hc1).1

/-- C3: non-convergence is not an error: whenever the dimension checks pass —
in particular when all maxiter passes ran without reaching tolerance — the
solver returns the current iterate normally as `Except.ok`, with no other
signal. -/
theorem claim3_nonconvergence_not_error (inp : RawInput) (pr : Params)
    (hr : (rowsSet inp).card = 1) (hc : (colsSet inp).card = 1)
    (_hnc : (invert_core pr inp.rows_L_b inp.cols_L_b inp.mat_w inp.mat_L
        inp.mat_L_b inp.col_P_t inp.col_p_H inp.col_p_n).2 = pr.maxiter) :
    invert_quality_of_life inp pr = Except.ok (List.ofFn
      (fun j : Fin inp.rows_L_b => invert_result pr inp.rows_L_b inp.cols_L_b
        inp.mat_w inp.mat_L inp.mat_L_b inp.col_P_t inp.col_p_H
        inp.col_p_n j)) := by
  unfold invert_quality_of_life
  rw [if_neg (by simp [hr]), if_neg (by simp [hc])]

/-- Witness for C3: the 1×1 all-ones input with maxiter 1 and tolerance 0
uses all its iterations yet returns `Except.ok`. -/
theorem claim3_witness :
    (rowsSet inp1).card = 1 ∧
      (invert_core pr0 inp1.rows_L_b inp1.cols_L_b inp1.mat_w inp1.mat_L
        inp1.mat_L_b inp1.col_P_t inp1.col_p_H inp1.col_p_n).2 = pr0.maxiter ∧
      invert_quality_of_life inp1 pr0 = Except.ok (List.ofFn
        (fun j : Fin inp1.rows_L_b => invert_result pr0 inp1.rows_L_b
          inp1.cols_L_b inp1.mat_w inp1.mat_L inp1.mat_L_b inp1.col_P_t
          inp1.col_p_H inp1.col_p_n j)) := by
  have hr : (rowsSet inp1).card = 1 := by decide
  have hc : (colsSet inp1).card = 1 := by decide
  have hnc : (invert_core pr0 inp1.rows_L_b inp1.cols_L_b inp1.mat_w
      inp1.mat_L inp1.mat_L_b inp1.col_P_t inp1.col_p_H
      inp1.col_p_n).2 = pr0.maxiter := by
    have h2 := congrArg Prod.snd (solveLoop_succ_lt pr0 1 1 inp1.mat_w
      (aggP pr0 inp1.col_P_t inp1.col_p_n inp1.col_p_H)
      (aggP pr0 (hatC inp1.col_P_t) (hatC inp1.col_p_n) (hatC inp1.col_p_H))
      (hatM inp1.mat_w) (hatM inp1.mat_L) (L_b_res 1 inp1.mat_L inp1.mat_L_b)
      0 100000 (fun _ _ => 1) (by norm_num [pr0]))
    exact h2
  exact ⟨hr, hnc, claim3_nonconvergence_not_error inp1 pr0 hr hc hnc⟩

/-- C4 (amended): the loop body executes at most maxiter times; and with
maxiter = 1 it executes exactly once provided tolerance < 100000 (the
sentinel initial objective value) — with tolerance ≥ 100000 the body never
runs at all, see the counterexample. -/
theorem claim4_iteration_cap (pr : Params) (J Th : ℕ) (w L L_b : Mat)
    (P_t p_H p_n : Col) :
    (invert_core pr J Th w L L_b P_t p_H p_n).2 ≤ pr.maxiter ∧
      (pr.maxiter = 1 → pr.tolerance < 100000 →
        (invert_core pr J Th w L L_b P_t p_H p_n).2 = 1) := by
  constructor
  · exact solveLoop_count_le pr J Th w (aggP pr P_t p_n p_H)
      (aggP pr (hatC P_t) (hatC p_n) (hatC p_H)) (hatM w) (hatM L)
      (L_b_res J L L_b) pr.maxiter 100000 (fun _ _ => 1)
  · intro h1 htol
    show (solveLoop pr J Th w (aggP pr P_t p_n p_H)
      (aggP pr (hatC P_t) (hatC p_n) (hatC p_H)) (hatM w) (hatM L)
      (L_b_res J L L_b) pr.maxiter 100000 (fun _ _ => 1)).2 = 1
    rw [h1]
    exact congrArg Prod.snd (solveLoop_succ_lt pr J Th w (aggP pr P_t p_n p_H)
      (aggP pr (hatC P_t) (hatC p_n) (hatC p_H)) (hatM w) (hatM L)
      (L_b_res J L L_b) 0 100000 (fun _ _ => 1) htol)

/-- Witness for C4 at maxiter = 1, tolerance = 0. -/
theorem claim4_witness :
    pr0.maxiter = 1 ∧ pr0.tolerance < 100000 ∧
      (invert_core pr0 1 1 onesM onesM onesM onesC onesC onesC).2 = 1 := by
  have h1 : pr0.maxiter = 1 := rfl
  have htol : pr0.tolerance < 100000 := by norm_num [pr0]
  exact ⟨h1, htol,
    (claim4_iteration_cap pr0 1 1 onesM onesM onesM onesC onesC onesC).2
      h1 htol⟩

/-- A parameter set with tolerance equal to the sentinel initial objective
100000, and maxiter = 1. -/
def prTol : Params := ⟨0.7, 0.5, 3, 5.5, 0.5, 100000, 1⟩

/-- Counterexample to C4 as stated: with maxiter = 1 and tolerance = 100000
the loop guard `O_total > tolerance` already fails on the sentinel initial
objective 100000, so zero update passes execute, not exactly one. -/
theorem claim4_counterexample :
    (invert_core prTol 1 1 onesM onesM onesM onesC onesC onesC).2 ≠ 1 := by
  have h : (invert_core prTol 1 1 onesM onesM onesM onesC onesC onesC).2 = 0 := by
    exact congrArg Prod.snd (solveLoop_succ_le prTol 1 1 onesM
      (aggP prTol onesC onesC onesC)
      (aggP prTol (hatC onesC) (hatC onesC) (hatC onesC))
      (hatM onesM) (hatM onesM) (L_b_res 1 onesM onesM)
      0 100000 (fun _ _ => 1) (by norm_num [prTol]))
  rw [h]
  norm_num

/-- C8: scale invariance in wages: multiplying every entry of `w` by a
positive constant `c` leaves the returned relative QoL vector unchanged on
its J entries (exact arithmetic, strictly positive inputs, damping in
[0,1]). -/
theorem claim8_scale_invariance (pr : Params) (J Th : ℕ) (w L L_b : Mat)
    (P_t p_H p_n : Col) (c : ℝ)
    (hc : 0 < c) (hJ : 0 < J) (hTh : 0 < Th)
    (hw : PosOn J Th w) (hL : PosOn J Th L) (hLb : PosOn J Th L_b)
    (hPt : PosCol J P_t) (hpH : PosCol J p_H) (hpn : PosCol J p_n)
    (hc0 : 0 ≤ pr.conv) (hc1 : pr.conv ≤ 1) :
    ∀ j < J, invert_result pr J Th (fun i s => c * w i s) L L_b P_t p_H p_n j =
      invert_result pr J Th w L L_b P_t p_H p_n j := by
  intro j hj
  obtain ⟨hP, hPhat, hPhat0, hwhat, hwhat0, hLhat, hLhat0, hLbres⟩ :=
    invert_fixed_pos pr J Th w L L_b P_t p_H p_n hJ hw hL hLb hPt hpH hpn
  have hsmul := solveLoop_smul pr J Th c hc w (aggP pr P_t p_n p_H)
    (aggP pr (hatC P_t) (hatC p_n) (hatC p_H)) (hatM w) (hatM L)
    (L_b_res J L L_b) hJ hw hP hPhat hwhat hLhat hLbres hc0 hc1
    pr.maxiter 100000 (fun _ _ => 1) (fun _ _ => 1)
    (fun _ _ _ _ => rfl) (fun _ _ _ _ => one_pos) j hj 0 hTh
  show (solveLoop pr J Th (fun i s => c * w i s) (aggP pr P_t p_n p_H)
      (aggP pr (hatC P_t) (hatC p_n) (hatC p_H))
      (hatM (fun i s => c * w i s)) (hatM L) (L_b_res J L L_b)
      pr.maxiter 100000 (fun _ _ => 1)).1 j 0 =
    (solveLoop pr J Th w (aggP pr P_t p_n p_H)
      (aggP pr (hatC P_t) (hatC p_n) (hatC p_H))
      (hatM w) (hatM L) (L_b_res J L L_b)
      pr.maxiter 100000 (fun _ _ => 1)).1 j 0
  rw [hatM_smul c (ne_of_gt hc) w]
  exact hsmul

/-- Witness for C8: doubling the all-ones wage matrix on the 2×1 input. -/
theorem claim8_witness :
    (0 : ℝ) < 2 ∧
      ∀ j < 2, invert_result pr0 2 1 (fun i s => 2 * onesM i s) onesM onesM
          onesC onesC onesC j =
        invert_result pr0 2 1 onesM onesM onesM onesC onesC onesC j := by
  refine ⟨by norm_num, ?_⟩
  exact claim8_scale_invariance pr0 2 1 onesM onesM onesM onesC onesC onesC 2
    (by norm_num) (by norm_num) (by norm_num)
    (fun _ _ _ _ => one_pos) (fun _ _ _ _ => one_pos) (fun _ _ _ _ => one_pos)
    (fun _ _ => one_pos) (fun _ _ => one_pos) (fun _ _ => one_pos)
    (by norm_num [pr0]) (by norm_num [pr0])

lemma solveLoop_ones_fixed (pr : Params) (J Th : ℕ) (w : Mat) (P P_hat : Col)
    (w_hat L_hat Lb : Mat) (n : ℕ)
    (htol0 : 0 ≤ pr.tolerance) (htol : pr.tolerance < 100000)
    (hstep1 : ∀ j < J, ∀ t < Th,
      step pr J w P P_hat w_hat L_hat Lb (fun _ _ => 1) j t = 1) :
    solveLoop pr J Th w P P_hat w_hat L_hat Lb (n + 1) 100000 (fun _ _ => 1) =
      (damp pr (fun _ _ => 1)
        (step pr J w P P_hat w_hat L_hat Lb (fun _ _ => 1)), 1) := by
  have hO1 : O_total J Th (step pr J w P P_hat w_hat L_hat Lb (fun _ _ => 1))
      (fun _ _ => 1) = 0 := by
    have hsum : (∑ j ∈ Finset.range J, ∑ t ∈ Finset.range Th,
        |step pr J w P P_hat w_hat L_hat Lb (fun _ _ => 1) j t -
          (fun _ _ => (1 : ℝ)) j t|) = 0 := by
      refine Finset.sum_eq_zero (fun i hi => ?_)
      refine Finset.sum_eq_zero (fun s hs => ?_)
      show |step pr J w P P_hat w_hat L_hat Lb (fun _ _ => 1) i s - 1| = 0
      rw [hstep1 i (Finset.mem_range.mp hi) s (Finset.mem_range.mp hs)]
      simp
    show (∑ j ∈ Finset.range J, ∑ t ∈ Finset.range Th,
      |step pr J w P P_hat w_hat L_hat Lb (fun _ _ => 1) j t -
        (fun _ _ => (1 : ℝ)) j t|) / J = 0
    rw [hsum, zero_div]
  rw [solveLoop_succ_lt pr J Th w P P_hat w_hat L_hat Lb n 100000
    (fun _ _ => 1) htol]
  cases n with
  | zero => rfl
  | succ m =>
    rw [solveLoop_succ_le pr J Th w P P_hat w_hat L_hat Lb m _ _
      (by rw [hO1]; exact htol0)]

/-- C9: on identical-locations data (every row of every input equal to row
0, all inputs strictly positive, 0 ≤ tolerance < 100000, maxiter ≥ 1) the
first pass reproduces the all-ones guess, the objective is 0 ≤ tolerance,
the loop stops after exactly one iteration, and the returned vector is
uniformly 1. -/
theorem claim9_identical_locations (pr : Params) (J Th : ℕ) (w L L_b : Mat)
    (P_t p_H p_n : Col)
    (hJ : 0 < J) (hTh : 0 < Th) (hmax : 1 ≤ pr.maxiter)
    (htol0 : 0 ≤ pr.tolerance) (htol : pr.tolerance < 100000)
    (hw : PosOn J Th w) (hL : PosOn J Th L) (hLb : PosOn J Th L_b)
    (hPt : PosCol J P_t) (hpH : PosCol J p_H) (hpn : PosCol J p_n)
    (hwc : ∀ j < J, ∀ t < Th, w j t = w 0 t)
    (hLc : ∀ j < J, ∀ t < Th, L j t = L 0 t)
    (hLbc : ∀ j < J, ∀ t < Th, L_b j t = L_b 0 t)
    (hPtc : ∀ j < J, P_t j = P_t 0)
    (hpHc : ∀ j < J, p_H j = p_H 0)
    (hpnc : ∀ j < J, p_n j = p_n 0) :
    (invert_core pr J Th w L L_b P_t p_H p_n).2 = 1 ∧
      ∀ j < J, invert_result pr J Th w L L_b P_t p_H p_n j = 1 := by
  obtain ⟨hP, hPhat, hPhat0, hwhat, hwhat0, hLhat, hLhat0, hLbres⟩ :=
    invert_fixed_pos pr J Th w L L_b P_t p_H p_n hJ hw hL hLb hPt hpH hpn
  have hPc : ∀ j < J, aggP pr P_t p_n p_H j = aggP pr P_t p_n p_H 0 := by
    intro j hj
    show P_t j ^ (pr.alpha * pr.beta) * p_n j ^ (pr.alpha * (1 - pr.beta)) *
      p_H j ^ (1 - pr.alpha) = _
    rw [hPtc j hj, hpnc j hj, hpHc j hj]
    rfl
  have hPhat1 : ∀ j < J, aggP pr (hatC P_t) (hatC p_n) (hatC p_H) j = 1 := by
    intro j hj
    have e1 : hatC P_t j = 1 := by
      show P_t j / P_t 0 = 1
      rw [hPtc j hj]
      exact div_self (ne_of_gt (hPt 0 hJ))
    have e2 : hatC p_n j = 1 := by
      show p_n j / p_n 0 = 1
      rw [hpnc j hj]
      exact div_self (ne_of_gt (hpn 0 hJ))
    have e3 : hatC p_H j = 1 := by
      show p_H j / p_H 0 = 1
      rw [hpHc j hj]
      exact div_self (ne_of_gt (hpH 0 hJ))
    show hatC P_t j ^ (pr.alpha * pr.beta) *
      hatC p_n j ^ (pr.alpha * (1 - pr.beta)) * hatC p_H j ^ (1 - pr.alpha) = 1
    rw [e1, e2, e3]
    simp [Real.one_rpow]
  have hwhat1 : ∀ j < J, ∀ t < Th, hatM w j t = 1 := by
    intro j hj t ht
    show w j t / w 0 t = 1
    rw [hwc j hj t ht]
    exact div_self (ne_of_gt (hw 0 hJ t ht))
  have hLhat1 : ∀ j < J, ∀ t < Th, hatM L j t = 1 := by
    intro j hj t ht
    show L j t / L 0 t = 1
    rw [hLc j hj t ht]
    exact div_self (ne_of_gt (hL 0 hJ t ht))
  have hLbresc : ∀ j < J, ∀ t < Th,
      L_b_res J L L_b j t = L_b_res J L L_b 0 t := by
    intro j hj t ht
    show L_b j t * L_b_adjust J L L_b t = L_b 0 t * L_b_adjust J L L_b t
    rw [hLbc j hj t ht]
  have hstep1 := step_ones_const pr J Th w (aggP pr P_t p_n p_H)
    (aggP pr (hatC P_t) (hatC p_n) (hatC p_H)) (hatM w) (hatM L)
    (L_b_res J L L_b) hJ hw hP hPc hwc hPhat1 hwhat1 hLhat1 hLbres hLbresc
  obtain ⟨n, hn⟩ : ∃ n, pr.maxiter = n + 1 :=
    ⟨pr.maxiter - 1, (Nat.succ_pred_eq_of_pos hmax).symm⟩
  have hcore : invert_core pr J Th w L L_b P_t p_H p_n =
      (damp pr (fun _ _ => 1)
        (step pr J w (aggP pr P_t p_n p_H)
          (aggP pr (hatC P_t) (hatC p_n) (hatC p_H)) (hatM w) (hatM L)
          (L_b_res J L L_b) (fun _ _ => 1)), 1) := by
    show solveLoop pr J Th w (aggP pr P_t p_n p_H)
      (aggP pr (hatC P_t) (hatC p_n) (hatC p_H)) (hatM w) (hatM L)
      (L_b_res J L L_b) pr.maxiter 100000 (fun _ _ => 1) = _
    rw [hn]
    exact solveLoop_ones_fixed pr J Th w (aggP pr P_t p_n p_H)
      (aggP pr (hatC P_t) (hatC p_n) (hatC p_H)) (hatM w) (hatM L)
      (L_b_res J L L_b) n htol0 htol hstep1
  constructor
  · rw [hcore]
  · intro j hj
    show (invert_core pr J Th w L L_b P_t p_H p_n).1 j 0 = 1
    rw [hcore]
    show pr.conv * step pr J w (aggP pr P_t p_n p_H)
      (aggP pr (hatC P_t) (hatC p_n) (hatC p_H)) (hatM w) (hatM L)
      (L_b_res J L L_b) (fun _ _ => 1) j 0 + (1 - pr.conv) * 1 = 1
    rw [hstep1 j hj 0 hTh]
    ring

/-- Witness for C9 at the all-ones 2×1 input with tolerance 0, maxiter 1. -/
theorem claim9_witness :
    (0 < 2) ∧ (0 : ℝ) ≤ pr0.tolerance ∧ pr0.tolerance < 100000 ∧
      ((invert_core pr0 2 1 onesM onesM onesM onesC onesC onesC).2 = 1 ∧
        ∀ j < 2,
          invert_result pr0 2 1 onesM onesM onesM onesC onesC onesC j = 1) := by
  refine ⟨by norm_num, by norm_num [pr0], by norm_num [pr0], ?_⟩
  exact claim9_identical_locations pr0 2 1 onesM onesM onesM onesC onesC onesC
    (by norm_num) (by norm_num) (by norm_num [pr0])
    (by norm_num [pr0]) (by norm_num [pr0])
    (fun _ _ _ _ => one_pos) (fun _ _ _ _ => one_pos) (fun _ _ _ _ => one_pos)
    (fun _ _ => one_pos) (fun _ _ => one_pos) (fun _ _ => one_pos)
    (fun _ _ _ _ => rfl) (fun _ _ _ _ => rfl) (fun _ _ _ _ => rfl)
    (fun _ _ => rfl) (fun _ _ => rfl) (fun _ _ => rfl)

/-- C10: whenever the dimension checks pass, the returned value is the
length-J list consisting of column 0 of the final iterate and nothing else
(columns 1..Θ−1 of the solved matrix are discarded). -/
theorem claim10_output_first_column (inp : RawInput) (pr : Params)
    (hr : (rowsSet inp).card = 1) (hc : (colsSet inp).card = 1) :
    invert_quality_of_life inp pr = Except.ok (List.ofFn
      (fun j : Fin inp.rows_L_b =>
        (invert_core pr inp.rows_L_b inp.cols_L_b inp.mat_w inp.mat_L
          inp.mat_L_b inp.col_P_t inp.col_p_H inp.col_p_n).1 j 0)) ∧
      ∀ l, invert_quality_of_life inp pr = Except.ok l →
        l.length = inp.rows_L_b := by
  have hmain : invert_quality_of_life inp pr = Except.ok (List.ofFn
      (fun j : Fin inp.rows_L_b =>
        (invert_core pr inp.rows_L_b inp.cols_L_b inp.mat_w inp.mat_L
          inp.mat_L_b inp.col_P_t inp.col_p_H inp.col_p_n).1 j 0)) := by
    unfold invert_quality_of_life
    rw [if_neg (by simp [hr]), if_neg (by simp [hc])]
    rfl
  refine ⟨hmain, fun l hl => ?_⟩
  rw [hmain] at hl
  injection hl with h
  rw [← h]
  simp

/-- Witness for C10 at the well-formed 1×1 all-ones input. -/
theorem claim10_witness :
    (rowsSet inp1).card = 1 ∧ (colsSet inp1).card = 1 ∧
      invert_quality_of_life inp1 pr0 = Except.ok (List.ofFn
        (fun j : Fin inp1.rows_L_b =>
          (invert_core pr0 inp1.rows_L_b inp1.cols_L_b inp1.mat_w inp1.mat_L
            inp1.mat_L_b inp1.col_P_t inp1.col_p_H inp1.col_p_n).1 j 0)) := by
  have hr : (rowsSet inp1).card = 1 := by decide
  have hc : (colsSet inp1).card = 1 := by decide
  exact ⟨hr, hc, (claim10_output_first_column inp1 pr0 hr hc).1⟩

end ABRSQOL
